import Mathlib

/-!
Verification of the compact span encoding of `src/libsyntax_pos/span_encoding.rs`.

A `Span` packs a `SpanData` triple `(lo, hi, ctxt)` into a single `u32`,
using one of three inline bit layouts (2-bit tag `0`, `1`, `2`), or - when no
inline layout fits - a 30-bit index into a deduplicating `SpanInterner`
(tag `3`).

Machine integers (`u32`) are embedded as `Nat` with explicit truncation
`% 2 ^ 32` at every operation whose Rust counterpart can wrap
(`<<`, `+`, wrapping `-`, `as u32` casts).  The thread-local interner of
`with_span_interner` is embedded by explicit state passing: `encode` and
`decode` take the interner and return the interner they leave behind.
A `panic!` (or an out-of-bounds `Vec` index in `SpanInterner::get`) is
embedded as `none`.
-/

namespace SpanEncoding

/-- The `u32` modulus `2 ^ 32`. -/
def U32 : Nat := 2 ^ 32

/-- Embeds `SpanData`: the decoded representation (the spec's `LocationRange`).
`lo`, `hi` are `BytePos(u32)` and `ctxt` a `SyntaxContext(u32)`; the
newtype wrappers are dropped and the payloads carried as `Nat`. -/
structure SpanData where
  lo : Nat
  hi : Nat
  ctxt : Nat
deriving DecidableEq

/-- Embeds `pub struct Span(u32);` - a compressed span, an opaque 32-bit scalar. -/
structure Span where
  val : Nat
deriving DecidableEq

/-- Embeds `pub const DUMMY_SP: Span = Span(0);`. -/
def DUMMY_SP : Span := ⟨0⟩

-- Tags
def TAG_INLINE0 : Nat := 0b00
def TAG_INLINE1 : Nat := 0b01
def TAG_INLINE2 : Nat := 0b10
def TAG_INTERNED : Nat := 0b11
def TAG_MASK : Nat := 0b11

-- Layout tables: the `[u32; 3]` arrays indexed by
-- `BASE_INDEX = 0`, `LEN_INDEX = 1`, `CTXT_INDEX = 2` become triples
-- `(base, len, ctxt)`.
def INLINE0_SIZES : Nat × Nat × Nat := (24, 6, 0)
def INLINE0_OFFSETS : Nat × Nat × Nat := (8, 2, 2)
def INLINE1_SIZES : Nat × Nat × Nat := (22, 8, 0)
def INLINE1_OFFSETS : Nat × Nat × Nat := (10, 2, 2)
def INLINE2_SIZES : Nat × Nat × Nat := (18, 1, 11)
def INLINE2_OFFSETS : Nat × Nat × Nat := (14, 13, 2)
def INTERNED_INDEX_SIZE : Nat := 30
def INTERNED_INDEX_OFFSET : Nat := 2

/-- Embeds `SpanInterner`: `spans` embeds the `HashMap<SpanData, u32>` as an
association list (lookup is by structural key equality, as for the hash
map), `span_data` embeds the `Vec<SpanData>`. -/
structure SpanInterner where
  spans : List (SpanData × Nat)
  span_data : List SpanData
deriving DecidableEq

/-- Embeds `#[derive(Default)]`: the fresh interner installed in TLS on first use. -/
def SpanInterner.default : SpanInterner := ⟨[], []⟩

/-- Embeds `self.spans.get(span_data)` on the association-list embedding of the
hash map. -/
def mapGet (m : List (SpanData × Nat)) (k : SpanData) : Option Nat :=
  match m with
  | [] => none
  | p :: rest => if p.1 = k then some p.2 else mapGet rest k

/-- Embeds `SpanInterner::intern`.  The `self.spans.len() as u32` cast is the
explicit truncation `% U32`.  Returns the index together with the updated
interner. -/
def SpanInterner.intern (self : SpanInterner) (span_data : SpanData) :
    Nat × SpanInterner :=
  match mapGet self.spans span_data with
  | some index => (index, self)
  | none =>
      let index := self.spans.length % U32
      (index,
       { spans := (span_data, index) :: self.spans,
         span_data := self.span_data ++ [span_data] })

/-- Embeds `SpanInterner::get`: `&self.span_data[index]`; an out-of-bounds index
(a `Vec` indexing panic) is `none`. -/
def SpanInterner.get (self : SpanInterner) (index : Nat) : Option SpanData :=
  self.span_data[index]?

/-- The `fits` closure of `encode`: every field's high bits beyond the
layout's width are zero. -/
def fits (base len ctxt : Nat) (sizes : Nat × Nat × Nat) : Prop :=
  base >>> sizes.1 = 0 ∧ len >>> sizes.2.1 = 0 ∧ ctxt >>> sizes.2.2 = 0

instance fits.decidable (base len ctxt : Nat) (sizes : Nat × Nat × Nat) :
    Decidable (fits base len ctxt sizes) := by
  unfold fits
  infer_instance

/-- The `compose` closure of `encode`: shift the three fields to their
offsets and `|` in the tag.  Each `u32` shift truncates to 32 bits. -/
def compose (base len ctxt : Nat) (offsets : Nat × Nat × Nat) (tag : Nat) :
    Nat :=
  ((base <<< offsets.1) % U32) ||| ((len <<< offsets.2.1) % U32) |||
    ((ctxt <<< offsets.2.2) % U32) ||| tag

/-- Embeds `fn encode(sd: &SpanData) -> Span`, with the thread-local interner made
an explicit argument.  `sd.hi.0 - sd.lo.0` is `u32` (wrapping)
subtraction; the `panic!("too many spans in a crate")` branch is `none`. -/
def encode (interner : SpanInterner) (sd : SpanData) :
    Option (Span × SpanInterner) :=
  let base := sd.lo
  let len := (sd.hi + U32 - sd.lo) % U32
  let ctxt := sd.ctxt
  if fits base len ctxt INLINE0_SIZES then
    some (⟨compose base len ctxt INLINE0_OFFSETS TAG_INLINE0⟩, interner)
  else if fits base len ctxt INLINE1_SIZES then
    some (⟨compose base len ctxt INLINE1_OFFSETS TAG_INLINE1⟩, interner)
  else if fits base len ctxt INLINE2_SIZES then
    some (⟨compose base len ctxt INLINE2_OFFSETS TAG_INLINE2⟩, interner)
  else
    let p := interner.intern sd
    if p.1 >>> INTERNED_INDEX_SIZE = 0 then
      some (⟨((p.1 <<< INTERNED_INDEX_OFFSET) % U32) ||| TAG_INTERNED⟩, p.2)
    else
      none

/-- The `extract` closure of `decode`: the mask is
`((!0u32) as u64 >> (32 - size)) as u32`, written out with its final
`u32` truncation. -/
def extract (val pos size : Nat) : Nat :=
  let mask := ((U32 - 1) >>> (32 - size)) % U32
  (val >>> pos) &&& mask

/-- Embeds `fn decode(span: Span) -> SpanData`, with the thread-local interner made
an explicit argument and returned (the interned arm runs inside
`with_span_interner`, which hands the closure `&mut` access; `get` only
reads).  `BytePos(base + len)` is `u32` addition.  The `unreachable!()`
arm is `none`. -/
def decode (interner : SpanInterner) (span : Span) :
    Option SpanData × SpanInterner :=
  let val := span.val
  let tag := val &&& TAG_MASK
  if tag = TAG_INLINE0 then
    (some { lo := extract val INLINE0_OFFSETS.1 INLINE0_SIZES.1,
            hi := (extract val INLINE0_OFFSETS.1 INLINE0_SIZES.1 +
                   extract val INLINE0_OFFSETS.2.1 INLINE0_SIZES.2.1) % U32,
            ctxt := extract val INLINE0_OFFSETS.2.2 INLINE0_SIZES.2.2 },
     interner)
  else if tag = TAG_INLINE1 then
    (some { lo := extract val INLINE1_OFFSETS.1 INLINE1_SIZES.1,
            hi := (extract val INLINE1_OFFSETS.1 INLINE1_SIZES.1 +
                   extract val INLINE1_OFFSETS.2.1 INLINE1_SIZES.2.1) % U32,
            ctxt := extract val INLINE1_OFFSETS.2.2 INLINE1_SIZES.2.2 },
     interner)
  else if tag = TAG_INLINE2 then
    (some { lo := extract val INLINE2_OFFSETS.1 INLINE2_SIZES.1,
            hi := (extract val INLINE2_OFFSETS.1 INLINE2_SIZES.1 +
                   extract val INLINE2_OFFSETS.2.1 INLINE2_SIZES.2.1) % U32,
            ctxt := extract val INLINE2_OFFSETS.2.2 INLINE2_SIZES.2.2 },
     interner)
  else if tag = TAG_INTERNED then
    (interner.get (extract val INTERNED_INDEX_OFFSET INTERNED_INDEX_SIZE),
     interner)
  else
    (none, interner)

/-- Embeds `Span::new(lo, hi, ctxt)`: normalizes the operand order, then encodes. -/
def Span.new (interner : SpanInterner) (lo hi ctxt : Nat) :
    Option (Span × SpanInterner) :=
  encode interner
    (if lo ≤ hi then { lo := lo, hi := hi, ctxt := ctxt }
     else { lo := hi, hi := lo, ctxt := ctxt })

/-- Embeds `Span::data(self)`. -/
def Span.data (interner : SpanInterner) (span : Span) :
    Option SpanData × SpanInterner :=
  decode interner span

/-- Interning a whole list in order, collecting the returned indices. -/
def internAll (st : SpanInterner) (l : List SpanData) :
    List Nat × SpanInterner :=
  match l with
  | [] => ([], st)
  | sd :: rest =>
      let p := st.intern sd
      let q := internAll p.2 rest
      (p.1 :: q.1, q.2)

/-- Encoding a whole list in order; `none` as soon as one encode panics. -/
def encodeAll (st : SpanInterner) (l : List SpanData) :
    Option (List Span × SpanInterner) :=
  match l with
  | [] => some ([], st)
  | sd :: rest =>
      match encode st sd with
      | none => none
      | some (sp, st') =>
          match encodeAll st' rest with
          | none => none
          | some (sps, st'') => some (sp :: sps, st'')

/-- A span needs the interned fallback: no inline layout fits its fields. -/
def needsFallback (sd : SpanData) : Prop :=
  ¬ fits sd.lo ((sd.hi + U32 - sd.lo) % U32) sd.ctxt INLINE0_SIZES ∧
  ¬ fits sd.lo ((sd.hi + U32 - sd.lo) % U32) sd.ctxt INLINE1_SIZES ∧
  ¬ fits sd.lo ((sd.hi + U32 - sd.lo) % U32) sd.ctxt INLINE2_SIZES

instance needsFallback.decidable (sd : SpanData) :
    Decidable (needsFallback sd) := by
  unfold needsFallback
  infer_instance

/-- Well-formedness of an interner state: the map and the vector have the
same number of entries, every map entry points at the vector slot holding
its key, and every vector element has a map entry.  `SpanInterner.default`
is well-formed and the states reachable from it by `intern` stay so. -/
def WF (st : SpanInterner) : Prop :=
  st.spans.length = st.span_data.length ∧
  (∀ p ∈ st.spans, st.span_data[p.2]? = some p.1) ∧
  (∀ sd ∈ st.span_data, ∃ p ∈ st.spans, p.1 = sd)

instance WF.decidable (st : SpanInterner) : Decidable (WF st) := by
  unfold WF
  infer_instance

/-! ### Bit-arithmetic helpers -/

lemma lor_shiftRight (x y k : Nat) : (x ||| y) >>> k = (x >>> k) ||| (y >>> k) := by
  apply Nat.eq_of_testBit_eq
  intro i
  simp [Nat.testBit_shiftRight, Nat.testBit_lor]

lemma lor_land (x y m : Nat) : (x ||| y) &&& m = (x &&& m) ||| (y &&& m) := by
  apply Nat.eq_of_testBit_eq
  intro i
  simp [Nat.testBit_land, Nat.testBit_lor, Bool.and_or_distrib_right]

lemma shiftRight_eq_zero_iff (x k : Nat) : x >>> k = 0 ↔ x < 2 ^ k := by
  rw [Nat.shiftRight_eq_div_pow]
  exact Nat.div_eq_zero_iff (Nat.two_pow_pos k)

lemma shiftLeft_lor_eq_add (a b n : Nat) (hb : b < 2 ^ n) :
    (a <<< n) ||| b = a * 2 ^ n + b := by
  rw [Nat.shiftLeft_eq]
  have hdiv : ((a * 2 ^ n) ||| b) / 2 ^ n = a := by
    have h0 := lor_shiftRight (a * 2 ^ n) b n
    rw [Nat.shiftRight_eq_div_pow, Nat.shiftRight_eq_div_pow,
      Nat.shiftRight_eq_div_pow, Nat.mul_div_cancel _ (Nat.two_pow_pos n),
      Nat.div_eq_of_lt hb, Nat.or_zero] at h0
    exact h0
  have hmod : ((a * 2 ^ n) ||| b) % 2 ^ n = b := by
    have h1 := lor_land (a * 2 ^ n) b (2 ^ n - 1)
    rw [Nat.and_pow_two_sub_one_eq_mod, Nat.and_pow_two_sub_one_eq_mod,
      Nat.and_pow_two_sub_one_eq_mod, Nat.mul_mod_left,
      Nat.mod_eq_of_lt hb, Nat.zero_or] at h1
    exact h1
  have hx := Nat.div_add_mod ((a * 2 ^ n) ||| b) (2 ^ n)
  rw [hdiv, hmod, Nat.mul_comm] at hx
  exact hx.symm

lemma shiftLeft_mod_U32 (x o s : Nat) (hx : x < 2 ^ s) (h : o + s ≤ 32) :
    (x <<< o) % U32 = x <<< o := by
  apply Nat.mod_eq_of_lt
  rw [Nat.shiftLeft_eq]
  calc x * 2 ^ o < 2 ^ s * 2 ^ o := (Nat.mul_lt_mul_right (Nat.two_pow_pos o)).mpr hx
    _ = 2 ^ (s + o) := (pow_add 2 s o).symm
    _ ≤ 2 ^ 32 := Nat.pow_le_pow_right (by norm_num) (by omega)

lemma and_three_eq_mod (x : Nat) : x &&& 3 = x % 4 := by
  have h : (3 : Nat) = 2 ^ 2 - 1 := by norm_num
  have h4 : (4 : Nat) = 2 ^ 2 := by norm_num
  rw [h, h4, Nat.and_pow_two_sub_one_eq_mod]

lemma extract_eq (v pos size : Nat) (h : size ≤ 32) :
    extract v pos size = v / 2 ^ pos % 2 ^ size := by
  unfold extract U32
  have hm : ((2 ^ 32 - 1 : Nat) >>> (32 - size)) % 2 ^ 32 = 2 ^ size - 1 := by
    interval_cases size <;> decide
  rw [hm, Nat.and_pow_two_sub_one_eq_mod, Nat.shiftRight_eq_div_pow]

/-! ### Arithmetic form of the composed scalars -/

lemma fits0_iff (base len ctxt : Nat) :
    fits base len ctxt INLINE0_SIZES ↔ base < 2 ^ 24 ∧ len < 2 ^ 6 ∧ ctxt = 0 := by
  simp only [fits, INLINE0_SIZES, shiftRight_eq_zero_iff]
  omega

lemma fits1_iff (base len ctxt : Nat) :
    fits base len ctxt INLINE1_SIZES ↔ base < 2 ^ 22 ∧ len < 2 ^ 8 ∧ ctxt = 0 := by
  simp only [fits, INLINE1_SIZES, shiftRight_eq_zero_iff]
  omega

lemma fits2_iff (base len ctxt : Nat) :
    fits base len ctxt INLINE2_SIZES ↔
      base < 2 ^ 18 ∧ len < 2 ^ 1 ∧ ctxt < 2 ^ 11 := by
  simp only [fits, INLINE2_SIZES, shiftRight_eq_zero_iff]

lemma compose0_eq (base len ctxt : Nat) (hb : base < 2 ^ 24) (hl : len < 2 ^ 6)
    (hc : ctxt = 0) :
    compose base len ctxt INLINE0_OFFSETS TAG_INLINE0 =
      base * 2 ^ 8 + len * 2 ^ 2 := by
  subst hc
  unfold compose INLINE0_OFFSETS TAG_INLINE0
  rw [shiftLeft_mod_U32 base 8 24 hb (by norm_num),
    shiftLeft_mod_U32 len 2 6 hl (by norm_num), Nat.zero_shiftLeft,
    Nat.zero_mod, Nat.or_zero, Nat.or_zero,
    shiftLeft_lor_eq_add base (len <<< 2) 8
      (by rw [Nat.shiftLeft_eq]; omega),
    Nat.shiftLeft_eq]

lemma compose1_eq (base len ctxt : Nat) (hb : base < 2 ^ 22) (hl : len < 2 ^ 8)
    (hc : ctxt = 0) :
    compose base len ctxt INLINE1_OFFSETS TAG_INLINE1 =
      base * 2 ^ 10 + len * 2 ^ 2 + 1 := by
  subst hc
  unfold compose INLINE1_OFFSETS TAG_INLINE1
  rw [shiftLeft_mod_U32 base 10 22 hb (by norm_num),
    shiftLeft_mod_U32 len 2 8 hl (by norm_num), Nat.zero_shiftLeft,
    Nat.zero_mod, Nat.or_zero, Nat.lor_assoc,
    shiftLeft_lor_eq_add len 1 2 (by norm_num),
    shiftLeft_lor_eq_add base (len * 2 ^ 2 + 1) 10 (by omega)]
  omega

lemma compose2_eq (base len ctxt : Nat) (hb : base < 2 ^ 18) (hl : len < 2 ^ 1)
    (hc : ctxt < 2 ^ 11) :
    compose base len ctxt INLINE2_OFFSETS TAG_INLINE2 =
      base * 2 ^ 14 + len * 2 ^ 13 + ctxt * 2 ^ 2 + 2 := by
  unfold compose INLINE2_OFFSETS TAG_INLINE2
  rw [shiftLeft_mod_U32 base 14 18 hb (by norm_num),
    shiftLeft_mod_U32 len 13 1 hl (by norm_num),
    shiftLeft_mod_U32 ctxt 2 11 hc (by norm_num),
    Nat.lor_assoc, Nat.lor_assoc,
    shiftLeft_lor_eq_add ctxt 2 2 (by norm_num),
    shiftLeft_lor_eq_add len (ctxt * 2 ^ 2 + 2) 13 (by omega),
    shiftLeft_lor_eq_add base (len * 2 ^ 13 + (ctxt * 2 ^ 2 + 2)) 14 (by omega)]
  omega

lemma interned_val_eq (i : Nat) (hi : i < 2 ^ 30) :
    ((i <<< INTERNED_INDEX_OFFSET) % U32) ||| TAG_INTERNED = i * 2 ^ 2 + 3 := by
  unfold INTERNED_INDEX_OFFSET TAG_INTERNED
  rw [shiftLeft_mod_U32 i 2 30 hi (by norm_num),
    shiftLeft_lor_eq_add i 3 2 (by norm_num)]

/-- A closed form of `decode` on an arbitrary scalar, in div/mod arithmetic. -/
lemma decode_eq (st : SpanInterner) (v : Nat) :
    decode st ⟨v⟩ =
      if v % 4 = 0 then
        (some { lo := v / 2 ^ 8 % 2 ^ 24,
                hi := (v / 2 ^ 8 % 2 ^ 24 + v / 2 ^ 2 % 2 ^ 6) % U32,
                ctxt := v / 2 ^ 2 % 2 ^ 0 }, st)
      else if v % 4 = 1 then
        (some { lo := v / 2 ^ 10 % 2 ^ 22,
                hi := (v / 2 ^ 10 % 2 ^ 22 + v / 2 ^ 2 % 2 ^ 8) % U32,
                ctxt := v / 2 ^ 2 % 2 ^ 0 }, st)
      else if v % 4 = 2 then
        (some { lo := v / 2 ^ 14 % 2 ^ 18,
                hi := (v / 2 ^ 14 % 2 ^ 18 + v / 2 ^ 13 % 2 ^ 1) % U32,
                ctxt := v / 2 ^ 2 % 2 ^ 11 }, st)
      else (st.get (v / 2 ^ 2 % 2 ^ 30), st) := by
  simp only [decode, TAG_MASK, TAG_INLINE0, TAG_INLINE1, TAG_INLINE2,
    TAG_INTERNED, INLINE0_OFFSETS, INLINE0_SIZES, INLINE1_OFFSETS,
    INLINE1_SIZES, INLINE2_OFFSETS, INLINE2_SIZES, INTERNED_INDEX_OFFSET,
    INTERNED_INDEX_SIZE, and_three_eq_mod,
    extract_eq _ _ _ (by norm_num : (24 : Nat) ≤ 32),
    extract_eq _ _ _ (by norm_num : (6 : Nat) ≤ 32),
    extract_eq _ _ _ (by norm_num : (0 : Nat) ≤ 32),
    extract_eq _ _ _ (by norm_num : (22 : Nat) ≤ 32),
    extract_eq _ _ _ (by norm_num : (8 : Nat) ≤ 32),
    extract_eq _ _ _ (by norm_num : (18 : Nat) ≤ 32),
    extract_eq _ _ _ (by norm_num : (1 : Nat) ≤ 32),
    extract_eq _ _ _ (by norm_num : (11 : Nat) ≤ 32),
    extract_eq _ _ _ (by norm_num : (30 : Nat) ≤ 32)]
  split_ifs with h0 h1 h2 h3
  · rfl
  · rfl
  · rfl
  · rfl
  · omega

lemma U32_eq : U32 = 4294967296 := by norm_num [U32]

/-! ### Decoding each composed scalar recovers the fields -/

lemma decode_compose0 (st : SpanInterner) (base len ctxt : Nat)
    (h : fits base len ctxt INLINE0_SIZES) :
    decode st ⟨compose base len ctxt INLINE0_OFFSETS TAG_INLINE0⟩ =
      (some ⟨base, (base + len) % U32, ctxt⟩, st) := by
  obtain ⟨hb, hl, hc⟩ := (fits0_iff base len ctxt).mp h
  rw [compose0_eq base len ctxt hb hl hc, decode_eq, if_pos (by omega)]
  have h1 : (base * 2 ^ 8 + len * 2 ^ 2) / 2 ^ 8 % 2 ^ 24 = base := by omega
  have h2 : (base * 2 ^ 8 + len * 2 ^ 2) / 2 ^ 2 % 2 ^ 6 = len := by omega
  have h3 : (base * 2 ^ 8 + len * 2 ^ 2) / 2 ^ 2 % 2 ^ 0 = ctxt := by omega
  rw [h1, h2, h3]

lemma decode_compose1 (st : SpanInterner) (base len ctxt : Nat)
    (h : fits base len ctxt INLINE1_SIZES) :
    decode st ⟨compose base len ctxt INLINE1_OFFSETS TAG_INLINE1⟩ =
      (some ⟨base, (base + len) % U32, ctxt⟩, st) := by
  obtain ⟨hb, hl, hc⟩ := (fits1_iff base len ctxt).mp h
  rw [compose1_eq base len ctxt hb hl hc, decode_eq, if_neg (by omega),
    if_pos (by omega)]
  have h1 : (base * 2 ^ 10 + len * 2 ^ 2 + 1) / 2 ^ 10 % 2 ^ 22 = base := by omega
  have h2 : (base * 2 ^ 10 + len * 2 ^ 2 + 1) / 2 ^ 2 % 2 ^ 8 = len := by omega
  have h3 : (base * 2 ^ 10 + len * 2 ^ 2 + 1) / 2 ^ 2 % 2 ^ 0 = ctxt := by omega
  rw [h1, h2, h3]

lemma decode_compose2 (st : SpanInterner) (base len ctxt : Nat)
    (h : fits base len ctxt INLINE2_SIZES) :
    decode st ⟨compose base len ctxt INLINE2_OFFSETS TAG_INLINE2⟩ =
      (some ⟨base, (base + len) % U32, ctxt⟩, st) := by
  obtain ⟨hb, hl, hc⟩ := (fits2_iff base len ctxt).mp h
  rw [compose2_eq base len ctxt hb hl hc, decode_eq, if_neg (by omega),
    if_neg (by omega), if_pos (by omega)]
  have h1 : (base * 2 ^ 14 + len * 2 ^ 13 + ctxt * 2 ^ 2 + 2) / 2 ^ 14 % 2 ^ 18 =
      base := by omega
  have h2 : (base * 2 ^ 14 + len * 2 ^ 13 + ctxt * 2 ^ 2 + 2) / 2 ^ 13 % 2 ^ 1 =
      len := by omega
  have h3 : (base * 2 ^ 14 + len * 2 ^ 13 + ctxt * 2 ^ 2 + 2) / 2 ^ 2 % 2 ^ 11 =
      ctxt := by omega
  rw [h1, h2, h3]

lemma decode_interned (st : SpanInterner) (i : Nat) (hi : i < 2 ^ 30) :
    decode st ⟨i * 2 ^ 2 + 3⟩ = (st.get i, st) := by
  rw [decode_eq, if_neg (by omega), if_neg (by omega), if_neg (by omega)]
  have h1 : (i * 2 ^ 2 + 3) / 2 ^ 2 % 2 ^ 30 = i := by omega
  rw [h1]

/-! ### Interner lemmas -/

lemma mapGet_mem {m : List (SpanData × Nat)} {k : SpanData} {v : Nat}
    (h : mapGet m k = some v) : (k, v) ∈ m := by
  induction m with
  | nil => simp [mapGet] at h
  | cons p rest ih =>
      rw [mapGet] at h
      by_cases hp : p.1 = k
      · rw [if_pos hp] at h
        have hv : p.2 = v := Option.some.inj h
        have hpkv : p = (k, v) := Prod.ext hp hv
        rw [← hpkv]
        exact List.mem_cons_self p rest
      · rw [if_neg hp] at h
        exact List.mem_cons_of_mem p (ih h)

lemma mapGet_eq_none {m : List (SpanData × Nat)} {k : SpanData}
    (h : ∀ p ∈ m, p.1 ≠ k) : mapGet m k = none := by
  induction m with
  | nil => rfl
  | cons p rest ih =>
      rw [mapGet, if_neg (h p (List.mem_cons_self p rest))]
      exact ih fun q hq => h q (List.mem_cons_of_mem p hq)

lemma intern_hit (st : SpanInterner) (sd : SpanData) (i : Nat)
    (hm : mapGet st.spans sd = some i) : st.intern sd = (i, st) := by
  rw [SpanInterner.intern, hm]

lemma intern_miss (st : SpanInterner) (sd : SpanData)
    (hm : mapGet st.spans sd = none) :
    st.intern sd = (st.spans.length % U32,
      ⟨(sd, st.spans.length % U32) :: st.spans, st.span_data ++ [sd]⟩) := by
  rw [SpanInterner.intern, hm]

/-- Interning twice returns the same index and does not change the state. -/
lemma intern_intern (st : SpanInterner) (sd : SpanData) :
    (st.intern sd).2.intern sd = st.intern sd := by
  cases hm : mapGet st.spans sd with
  | some i => rw [intern_hit st sd i hm, intern_hit st sd i hm]
  | none =>
      rw [intern_miss st sd hm]
      rw [intern_hit _ sd (st.spans.length % U32) (by rw [mapGet, if_pos rfl])]

/-- The slot the returned index points at holds exactly the interned value. -/
lemma intern_get_self (st : SpanInterner) (sd : SpanData) (hwf : WF st)
    (hsmall : st.spans.length < U32) :
    (st.intern sd).2.get (st.intern sd).1 = some sd := by
  cases hm : mapGet st.spans sd with
  | some i =>
      rw [intern_hit st sd i hm]
      exact hwf.2.1 (sd, i) (mapGet_mem hm)
  | none =>
      rw [intern_miss st sd hm, SpanInterner.get]
      simp only [Nat.mod_eq_of_lt hsmall]
      rw [hwf.1]
      exact List.getElem?_concat_length st.span_data sd

/-- Interning preserves well-formedness (below the index-truncation bound). -/
lemma intern_WF (st : SpanInterner) (sd : SpanData) (hwf : WF st)
    (hsmall : st.spans.length < U32) : WF (st.intern sd).2 := by
  obtain ⟨hlen, hmap, hmem⟩ := hwf
  cases hm : mapGet st.spans sd with
  | some i =>
      rw [intern_hit st sd i hm]
      exact ⟨hlen, hmap, hmem⟩
  | none =>
      rw [intern_miss st sd hm]
      refine ⟨?_, ?_, ?_⟩
      · simp [hlen]
      · intro p hp
        rcases List.mem_cons.mp hp with h | h
        · subst h
          simp only [Nat.mod_eq_of_lt hsmall]
          rw [hlen]
          exact List.getElem?_concat_length st.span_data sd
        · have hsome := hmap p h
          have hlt : p.2 < st.span_data.length := by
            by_contra hc
            push_neg at hc
            rw [List.getElem?_eq_none hc] at hsome
            cases hsome
          simp only []
          rw [List.getElem?_append_left hlt]
          exact hsome
      · intro x hx
        rcases List.mem_append.mp hx with h | h
        · obtain ⟨p, hp, hpx⟩ := hmem x h
          exact ⟨p, List.mem_cons_of_mem _ hp, hpx⟩
        · rw [List.mem_singleton.mp h]
          exact ⟨(sd, st.spans.length % U32), List.mem_cons_self _ _, rfl⟩

/-- After an intern, the map resolves the interned value to its index. -/
lemma mapGet_intern_self (st st' : SpanInterner) (sd : SpanData) (i : Nat)
    (h : st.intern sd = (i, st')) : mapGet st'.spans sd = some i := by
  cases hm : mapGet st.spans sd with
  | some j =>
      rw [intern_hit st sd j hm] at h
      obtain ⟨rfl, rfl⟩ := Prod.mk.inj h
      exact hm
  | none =>
      rw [intern_miss st sd hm] at h
      obtain ⟨rfl, rfl⟩ := Prod.mk.inj h
      rw [mapGet, if_pos rfl]

/-- Re-interning a previously interned value, even after an interleaved
intern of another value, still returns the original index without changing
the state. -/
lemma intern_stable (st st' stx : SpanInterner) (sd x : SpanData) (i j : Nat)
    (h : st.intern sd = (i, st')) (hx : st'.intern x = (j, stx)) :
    stx.intern sd = (i, stx) := by
  have hm : mapGet st'.spans sd = some i := mapGet_intern_self st st' sd i h
  cases hmx : mapGet st'.spans x with
  | some k =>
      rw [intern_hit st' x k hmx] at hx
      obtain ⟨rfl, rfl⟩ := Prod.mk.inj hx
      exact intern_hit st' sd i hm
  | none =>
      rw [intern_miss st' x hmx] at hx
      obtain ⟨rfl, rfl⟩ := Prod.mk.inj hx
      apply intern_hit
      rw [mapGet]
      have hne : x ≠ sd := by
        intro hcontra
        rw [hcontra, hm] at hmx
        cases hmx
      rw [if_neg hne]
      exact hm

/-- A slot already present survives any later intern. -/
lemma intern_get_stable (st : SpanInterner) (x : SpanData) (i : Nat)
    (d : SpanData) (h : st.get i = some d) : (st.intern x).2.get i = some d := by
  cases hm : mapGet st.spans x with
  | some j => rw [intern_hit st x j hm]; exact h
  | none =>
      rw [intern_miss st x hm, SpanInterner.get]
      rw [SpanInterner.get] at h
      have hlt : i < st.span_data.length := by
        by_contra hc
        push_neg at hc
        rw [List.getElem?_eq_none hc] at h
        cases h
      rw [List.getElem?_append_left hlt]
      exact h

/-! ### Encode-level lemmas -/

/-- Unfolded form of `encode`. -/
lemma encode_eq (st : SpanInterner) (sd : SpanData) :
    encode st sd =
      if fits sd.lo ((sd.hi + U32 - sd.lo) % U32) sd.ctxt INLINE0_SIZES then
        some (⟨compose sd.lo ((sd.hi + U32 - sd.lo) % U32) sd.ctxt
                INLINE0_OFFSETS TAG_INLINE0⟩, st)
      else if fits sd.lo ((sd.hi + U32 - sd.lo) % U32) sd.ctxt INLINE1_SIZES then
        some (⟨compose sd.lo ((sd.hi + U32 - sd.lo) % U32) sd.ctxt
                INLINE1_OFFSETS TAG_INLINE1⟩, st)
      else if fits sd.lo ((sd.hi + U32 - sd.lo) % U32) sd.ctxt INLINE2_SIZES then
        some (⟨compose sd.lo ((sd.hi + U32 - sd.lo) % U32) sd.ctxt
                INLINE2_OFFSETS TAG_INLINE2⟩, st)
      else if (st.intern sd).1 >>> INTERNED_INDEX_SIZE = 0 then
        some (⟨(((st.intern sd).1 <<< INTERNED_INDEX_OFFSET) % U32) |||
                TAG_INTERNED⟩, (st.intern sd).2)
      else none := rfl

/-- Any successfully encoded span decodes, in the state encode left behind,
to the original span data, provided the data was normalized (`lo ≤ hi`) and
representable. -/
lemma encode_decode (st st' : SpanInterner) (sd : SpanData) (sp : Span)
    (hwf : WF st) (hsmall : st.spans.length < U32)
    (hle : sd.lo ≤ sd.hi) (hhi : sd.hi < U32)
    (he : encode st sd = some (sp, st')) :
    decode st' sp = (some sd, st') := by
  have hlen : (sd.hi + U32 - sd.lo) % U32 = sd.hi - sd.lo := by
    simp only [U32_eq] at hhi ⊢
    omega
  have hrecon : (sd.lo + (sd.hi + U32 - sd.lo) % U32) % U32 = sd.hi := by
    simp only [U32_eq] at hhi ⊢
    omega
  rw [encode_eq] at he
  by_cases h0 : fits sd.lo ((sd.hi + U32 - sd.lo) % U32) sd.ctxt INLINE0_SIZES
  · rw [if_pos h0] at he
    simp only [Option.some.injEq, Prod.mk.injEq] at he
    obtain ⟨rfl, rfl⟩ := he
    rw [decode_compose0 st _ _ _ h0, hrecon]
  · rw [if_neg h0] at he
    by_cases h1 : fits sd.lo ((sd.hi + U32 - sd.lo) % U32) sd.ctxt INLINE1_SIZES
    · rw [if_pos h1] at he
      simp only [Option.some.injEq, Prod.mk.injEq] at he
      obtain ⟨rfl, rfl⟩ := he
      rw [decode_compose1 st _ _ _ h1, hrecon]
    · rw [if_neg h1] at he
      by_cases h2 : fits sd.lo ((sd.hi + U32 - sd.lo) % U32) sd.ctxt INLINE2_SIZES
      · rw [if_pos h2] at he
        simp only [Option.some.injEq, Prod.mk.injEq] at he
        obtain ⟨rfl, rfl⟩ := he
        rw [decode_compose2 st _ _ _ h2, hrecon]
      · rw [if_neg h2] at he
        by_cases hg : (st.intern sd).1 >>> INTERNED_INDEX_SIZE = 0
        · rw [if_pos hg] at he
          simp only [Option.some.injEq, Prod.mk.injEq] at he
          obtain ⟨rfl, rfl⟩ := he
          rw [INTERNED_INDEX_SIZE, shiftRight_eq_zero_iff] at hg
          have hval : (((st.intern sd).1 <<< INTERNED_INDEX_OFFSET) % U32) |||
              TAG_INTERNED = (st.intern sd).1 * 2 ^ 2 + 3 :=
            interned_val_eq (st.intern sd).1 hg
          rw [hval, decode_interned _ _ hg, intern_get_self st sd hwf hsmall]
        · rw [if_neg hg] at he
          cases he

/-- Any successfully encoded span decodes to something (no normalization
hypotheses needed: only the interned arm can fail, and the freshly interned
index is always in bounds). -/
lemma encode_decode_isSome (st st' : SpanInterner) (sd : SpanData) (sp : Span)
    (hwf : WF st) (hsmall : st.spans.length < U32)
    (he : encode st sd = some (sp, st')) :
    (decode st' sp).1.isSome = true ∧ (decode st' sp).2 = st' := by
  rw [encode_eq] at he
  by_cases h0 : fits sd.lo ((sd.hi + U32 - sd.lo) % U32) sd.ctxt INLINE0_SIZES
  · rw [if_pos h0] at he
    simp only [Option.some.injEq, Prod.mk.injEq] at he
    obtain ⟨rfl, rfl⟩ := he
    rw [decode_compose0 st _ _ _ h0]
    exact ⟨rfl, rfl⟩
  · rw [if_neg h0] at he
    by_cases h1 : fits sd.lo ((sd.hi + U32 - sd.lo) % U32) sd.ctxt INLINE1_SIZES
    · rw [if_pos h1] at he
      simp only [Option.some.injEq, Prod.mk.injEq] at he
      obtain ⟨rfl, rfl⟩ := he
      rw [decode_compose1 st _ _ _ h1]
      exact ⟨rfl, rfl⟩
    · rw [if_neg h1] at he
      by_cases h2 : fits sd.lo ((sd.hi + U32 - sd.lo) % U32) sd.ctxt INLINE2_SIZES
      · rw [if_pos h2] at he
        simp only [Option.some.injEq, Prod.mk.injEq] at he
        obtain ⟨rfl, rfl⟩ := he
        rw [decode_compose2 st _ _ _ h2]
        exact ⟨rfl, rfl⟩
      · rw [if_neg h2] at he
        by_cases hg : (st.intern sd).1 >>> INTERNED_INDEX_SIZE = 0
        · rw [if_pos hg] at he
          simp only [Option.some.injEq, Prod.mk.injEq] at he
          obtain ⟨rfl, rfl⟩ := he
          rw [INTERNED_INDEX_SIZE, shiftRight_eq_zero_iff] at hg
          rw [interned_val_eq (st.intern sd).1 hg, decode_interned _ _ hg,
            intern_get_self st sd hwf hsmall]
          exact ⟨rfl, rfl⟩
        · rw [if_neg hg] at he
          cases he

/-- Once no inline layout fits, encode is exactly the interned arm. -/
lemma encode_fallback (st : SpanInterner) (sd : SpanData)
    (h : needsFallback sd) :
    encode st sd =
      if (st.intern sd).1 >>> INTERNED_INDEX_SIZE = 0 then
        some (⟨(((st.intern sd).1 <<< INTERNED_INDEX_OFFSET) % U32) |||
                TAG_INTERNED⟩, (st.intern sd).2)
      else none := by
  obtain ⟨h0, h1, h2⟩ := h
  rw [encode_eq, if_neg h0, if_neg h1, if_neg h2]

/-! ### Runs of interns and encodes -/

lemma internAll_fresh (l : List SpanData) : ∀ st : SpanInterner,
    l.Nodup → (∀ x ∈ l, mapGet st.spans x = none) →
    st.spans.length + l.length ≤ U32 →
    (internAll st l).1 = List.range' st.spans.length l.length ∧
    (internAll st l).2.spans.length = st.spans.length + l.length := by
  induction l with
  | nil =>
      intro st _ _ _
      exact ⟨rfl, rfl⟩
  | cons sd rest ih =>
      intro st hnd hmiss hbound
      have hmhead : mapGet st.spans sd = none :=
        hmiss sd (List.mem_cons_self _ _)
      simp only [List.length_cons] at hbound
      have hlt : st.spans.length < U32 := by omega
      have hidx : st.spans.length % U32 = st.spans.length :=
        Nat.mod_eq_of_lt hlt
      simp only [internAll, intern_miss st sd hmhead]
      have hrest := ih ⟨(sd, st.spans.length % U32) :: st.spans,
          st.span_data ++ [sd]⟩ (List.Nodup.of_cons hnd)
        (by
          intro x hx
          rw [mapGet]
          have hne : sd ≠ x := fun hcontra =>
            (List.nodup_cons.mp hnd).1 (hcontra ▸ hx)
          rw [if_neg hne]
          exact hmiss x (List.mem_cons_of_mem sd hx))
        (by
          simp only [List.length_cons]
          omega)
      simp only [List.length_cons] at hrest
      constructor
      · rw [hrest.1, hidx]
        have hlc : (sd :: rest).length = rest.length + 1 := List.length_cons sd rest
        rw [hlc, List.range'_succ]
      · rw [hrest.2]
        simp only [List.length_cons]
        omega

lemma encodeAll_cons_none (st : SpanInterner) (sd : SpanData)
    (rest : List SpanData) (he : encode st sd = none) :
    encodeAll st (sd :: rest) = none := by
  rw [encodeAll, he]

lemma encodeAll_cons_some (st st' : SpanInterner) (sd : SpanData) (sp : Span)
    (rest : List SpanData) (he : encode st sd = some (sp, st')) :
    encodeAll st (sd :: rest) =
      match encodeAll st' rest with
      | none => none
      | some (sps, st'') => some (sp :: sps, st'') := by
  rw [encodeAll, he]

lemma encodeAll_none_of_append (l₁ : List SpanData) :
    ∀ (st st1 : SpanInterner) (l₂ : List SpanData) (sps : List Span),
    encodeAll st l₁ = some (sps, st1) → encodeAll st1 l₂ = none →
    encodeAll st (l₁ ++ l₂) = none := by
  induction l₁ with
  | nil =>
      intro st st1 l₂ sps h1 h2
      simp only [encodeAll, Option.some.injEq, Prod.mk.injEq] at h1
      obtain ⟨-, rfl⟩ := h1
      simpa using h2
  | cons sd rest ih =>
      intro st st1 l₂ sps h1 h2
      cases he : encode st sd with
      | none =>
          rw [encodeAll_cons_none st sd rest he] at h1
          cases h1
      | some p =>
          obtain ⟨sp, st'⟩ := p
          rw [encodeAll_cons_some st st' sd sp rest he] at h1
          rw [List.cons_append, encodeAll_cons_some st st' sd sp (rest ++ l₂) he]
          cases hr : encodeAll st' rest with
          | none =>
              rw [hr] at h1
              cases h1
          | some q =>
              obtain ⟨sps', st''⟩ := q
              rw [hr] at h1
              simp only [Option.some.injEq, Prod.mk.injEq] at h1
              obtain ⟨-, rfl⟩ := h1
              rw [ih st' st'' l₂ sps' hr h2]

lemma encodeAll_fresh (l : List SpanData) : ∀ st : SpanInterner,
    l.Nodup → (∀ x ∈ l, needsFallback x) →
    (∀ x ∈ l, mapGet st.spans x = none) →
    st.spans.length + l.length ≤ 2 ^ 30 →
    ∃ sps st', encodeAll st l = some (sps, st') ∧
      st'.spans.length = st.spans.length + l.length ∧
      (∀ x, mapGet st.spans x = none → x ∉ l → mapGet st'.spans x = none) := by
  induction l with
  | nil =>
      intro st _ _ _ _
      exact ⟨[], st, rfl, by simp, fun x h _ => h⟩
  | cons sd rest ih =>
      intro st hnd hfb hmiss hbound
      have hfb0 := hfb sd (List.mem_cons_self _ _)
      have hmhead : mapGet st.spans sd = none :=
        hmiss sd (List.mem_cons_self _ _)
      simp only [List.length_cons] at hbound
      have hlt30 : st.spans.length < 2 ^ 30 := by omega
      have hltU : st.spans.length < U32 := by rw [U32_eq]; omega
      have hidx : st.spans.length % U32 = st.spans.length :=
        Nat.mod_eq_of_lt hltU
      have henc : encode st sd =
          some (⟨((st.spans.length <<< INTERNED_INDEX_OFFSET) % U32) |||
                  TAG_INTERNED⟩,
                ⟨(sd, st.spans.length % U32) :: st.spans,
                 st.span_data ++ [sd]⟩) := by
        rw [encode_fallback st sd hfb0, intern_miss st sd hmhead]
        rw [if_pos (by
          simp only [hidx, INTERNED_INDEX_SIZE, shiftRight_eq_zero_iff]
          exact hlt30)]
        rw [hidx]
      have hrest := ih ⟨(sd, st.spans.length % U32) :: st.spans,
          st.span_data ++ [sd]⟩ (List.Nodup.of_cons hnd)
        (fun x hx => hfb x (List.mem_cons_of_mem sd hx))
        (by
          intro x hx
          rw [mapGet]
          have hne : sd ≠ x := fun hcontra =>
            (List.nodup_cons.mp hnd).1 (hcontra ▸ hx)
          rw [if_neg hne]
          exact hmiss x (List.mem_cons_of_mem sd hx))
        (by
          simp only [List.length_cons]
          omega)
      obtain ⟨sps, st', hrun, hlen, hpres⟩ := hrest
      refine ⟨⟨((st.spans.length <<< INTERNED_INDEX_OFFSET) % U32) |||
              TAG_INTERNED⟩ :: sps, st', ?_, ?_, ?_⟩
      · rw [encodeAll_cons_some st _ sd _ rest henc, hrun]
      · simp only [List.length_cons] at hlen ⊢
        omega
      · intro x hx hnotin
        have hxne : x ≠ sd := fun hcontra => hnotin (hcontra ▸ List.mem_cons_self sd rest)
        have hxnr : x ∉ rest := fun hcontra => hnotin (List.mem_cons_of_mem sd hcontra)
        apply hpres x ?_ hxnr
        rw [mapGet, if_neg (fun hcontra => hxne hcontra.symm)]
        exact hx

/-- A context that does not fit in 11 bits rules out every inline layout. -/
lemma needsFallback_of_ctxt (sd : SpanData) (h : ¬ sd.ctxt < 2 ^ 11) :
    needsFallback sd := by
  refine ⟨?_, ?_, ?_⟩
  · rw [fits0_iff]
    rintro ⟨-, -, hc⟩
    exact h (by omega)
  · rw [fits1_iff]
    rintro ⟨-, -, hc⟩
    exact h (by omega)
  · rw [fits2_iff]
    rintro ⟨-, -, hc⟩
    exact h hc

/-- A family of pairwise-distinct spans, each requiring the fallback path
(context 2048 needs 12 bits). -/
def fallbackFamily (n : Nat) : List SpanData :=
  (List.range n).map (fun k => ⟨k, k, 2048⟩)

lemma fallbackFamily_nodup (n : Nat) : (fallbackFamily n).Nodup := by
  apply (List.nodup_range n).map
  intro a b hab
  simpa using congrArg SpanData.lo hab

lemma fallbackFamily_fallback (n : Nat) :
    ∀ x ∈ fallbackFamily n, needsFallback x := by
  intro x hx
  obtain ⟨k, -, rfl⟩ := List.mem_map.mp hx
  exact needsFallback_of_ctxt _ (by norm_num)

lemma fallbackFamily_length (n : Nat) : (fallbackFamily n).length = n := by
  simp [fallbackFamily]

/-! ### The claims -/

/-- C1: for every start, end and context within representable `u32` ranges
with start ≤ end, decoding the span produced by `encode` yields exactly the
original triple; stated uniformly over the inline paths (tags 0-2) and the
interned fallback path (tag 3), all of which `encode` can take. -/
theorem C1_round_trip (st st' : SpanInterner) (sp : Span) (s e c : Nat)
    (hwf : WF st) (hsmall : st.spans.length < U32)
    (hse : s ≤ e) (hs : s < U32) (he : e < U32) (hc : c < U32)
    (henc : encode st ⟨s, e, c⟩ = some (sp, st')) :
    (decode st' sp).1 = some ⟨s, e, c⟩ := by
  rw [encode_decode st st' ⟨s, e, c⟩ sp hwf hsmall hse he henc]

/-- Witness for C1 at a concrete input taking the interned fallback path. -/
theorem C1_round_trip_witness :
    (decode ⟨[(⟨0, 1000000, 0⟩, 0)], [⟨0, 1000000, 0⟩]⟩ ⟨3⟩).1 =
      some ⟨0, 1000000, 0⟩ :=
  C1_round_trip SpanInterner.default ⟨[(⟨0, 1000000, 0⟩, 0)], [⟨0, 1000000, 0⟩]⟩
    ⟨3⟩ 0 1000000 0 (by decide) (by decide) (by decide) (by decide) (by decide)
    (by decide) (by decide)

/-- C2: `Span.new` normalizes the argument order - both orders produce the
same result, and a successful encode decodes to (min, max, context). -/
theorem C2_normalization (st : SpanInterner) (a b c : Nat)
    (hwf : WF st) (hsmall : st.spans.length < U32)
    (ha : a < U32) (hb : b < U32) (hc : c < U32) :
    Span.new st a b c = Span.new st b a c ∧
    (∀ sp st', Span.new st a b c = some (sp, st') →
      (decode st' sp).1 = some ⟨min a b, max a b, c⟩) := by
  constructor
  · unfold Span.new
    rcases Nat.le_total a b with h | h
    · by_cases h2 : b ≤ a
      · have hab : a = b := Nat.le_antisymm h h2
        subst hab
        rfl
      · rw [if_pos h, if_neg h2]
    · by_cases h2 : a ≤ b
      · have hab : a = b := Nat.le_antisymm h2 h
        subst hab
        rfl
      · rw [if_neg h2, if_pos h]
  · intro sp st' hnew
    unfold Span.new at hnew
    by_cases h : a ≤ b
    · rw [if_pos h] at hnew
      rw [encode_decode st st' ⟨a, b, c⟩ sp hwf hsmall h hb hnew]
      rw [Nat.min_eq_left h, Nat.max_eq_right h]
    · rw [if_neg h] at hnew
      have hba : b ≤ a := Nat.le_of_not_le h
      rw [encode_decode st st' ⟨b, a, c⟩ sp hwf hsmall hba ha hnew]
      rw [Nat.min_eq_right hba, Nat.max_eq_left hba]

/-- Witness for C2 at a concrete reversed pair. -/
theorem C2_normalization_witness :
    (decode SpanInterner.default ⟨1300⟩).1 = some ⟨min 10 5, max 10 5, 0⟩ :=
  (C2_normalization SpanInterner.default 10 5 0 (by decide) (by decide)
    (by decide) (by decide) (by decide)).2 ⟨1300⟩ SpanInterner.default
    (by decide)

/-- C3: the encoder tries the inline layouts in the fixed priority order
tag 0 (24/6/0), tag 1 (22/8/0), tag 2 (18/1/11); the first whose fields fit
is chosen, the fields are shifted into one scalar and the 2-bit tag sits in
the low 2 bits; in particular encode(5, 10, 0) selects the tag-0 layout and
decodes back to (5, 10, 0). -/
theorem C3_layout_priority :
    (∀ (st : SpanInterner) (sd : SpanData),
      (fits sd.lo ((sd.hi + U32 - sd.lo) % U32) sd.ctxt INLINE0_SIZES →
        encode st sd = some (⟨compose sd.lo ((sd.hi + U32 - sd.lo) % U32)
          sd.ctxt INLINE0_OFFSETS TAG_INLINE0⟩, st) ∧
        compose sd.lo ((sd.hi + U32 - sd.lo) % U32) sd.ctxt INLINE0_OFFSETS
          TAG_INLINE0 &&& TAG_MASK = TAG_INLINE0) ∧
      (¬ fits sd.lo ((sd.hi + U32 - sd.lo) % U32) sd.ctxt INLINE0_SIZES →
        fits sd.lo ((sd.hi + U32 - sd.lo) % U32) sd.ctxt INLINE1_SIZES →
        encode st sd = some (⟨compose sd.lo ((sd.hi + U32 - sd.lo) % U32)
          sd.ctxt INLINE1_OFFSETS TAG_INLINE1⟩, st) ∧
        compose sd.lo ((sd.hi + U32 - sd.lo) % U32) sd.ctxt INLINE1_OFFSETS
          TAG_INLINE1 &&& TAG_MASK = TAG_INLINE1) ∧
      (¬ fits sd.lo ((sd.hi + U32 - sd.lo) % U32) sd.ctxt INLINE0_SIZES →
        ¬ fits sd.lo ((sd.hi + U32 - sd.lo) % U32) sd.ctxt INLINE1_SIZES →
        fits sd.lo ((sd.hi + U32 - sd.lo) % U32) sd.ctxt INLINE2_SIZES →
        encode st sd = some (⟨compose sd.lo ((sd.hi + U32 - sd.lo) % U32)
          sd.ctxt INLINE2_OFFSETS TAG_INLINE2⟩, st) ∧
        compose sd.lo ((sd.hi + U32 - sd.lo) % U32) sd.ctxt INLINE2_OFFSETS
          TAG_INLINE2 &&& TAG_MASK = TAG_INLINE2)) ∧
    (∀ st : SpanInterner,
      encode st ⟨5, 10, 0⟩ = some (⟨1300⟩, st) ∧
      (1300 : Nat) &&& TAG_MASK = TAG_INLINE0 ∧
      (decode st ⟨1300⟩).1 = some ⟨5, 10, 0⟩) := by
  constructor
  · intro st sd
    refine ⟨?_, ?_, ?_⟩
    · intro h0
      refine ⟨by rw [encode_eq, if_pos h0], ?_⟩
      obtain ⟨hb, hl, hc⟩ := (fits0_iff _ _ _).mp h0
      rw [compose0_eq _ _ _ hb hl hc]
      simp only [TAG_MASK, TAG_INLINE0]
      rw [and_three_eq_mod]
      omega
    · intro h0 h1
      refine ⟨by rw [encode_eq, if_neg h0, if_pos h1], ?_⟩
      obtain ⟨hb, hl, hc⟩ := (fits1_iff _ _ _).mp h1
      rw [compose1_eq _ _ _ hb hl hc]
      simp only [TAG_MASK, TAG_INLINE1]
      rw [and_three_eq_mod]
      omega
    · intro h0 h1 h2
      refine ⟨by rw [encode_eq, if_neg h0, if_neg h1, if_pos h2], ?_⟩
      obtain ⟨hb, hl, hc⟩ := (fits2_iff _ _ _).mp h2
      rw [compose2_eq _ _ _ hb hl hc]
      simp only [TAG_MASK, TAG_INLINE2]
      rw [and_three_eq_mod]
      omega
  · intro st
    refine ⟨?_, by decide, ?_⟩
    · rw [encode_eq, if_pos (by decide)]
      have hv : compose 5 ((10 + U32 - 5) % U32) 0 INLINE0_OFFSETS
          TAG_INLINE0 = 1300 := by decide
      rw [hv]
    · rw [decode_eq, if_pos (by decide)]
      norm_num [U32_eq]

/-- Witness for C3 at the concrete layout-boundary input. -/
theorem C3_layout_priority_witness :
    encode SpanInterner.default ⟨5, 10, 0⟩ =
      some (⟨compose 5 ((10 + U32 - 5) % U32) 0 INLINE0_OFFSETS TAG_INLINE0⟩,
            SpanInterner.default) :=
  ((C3_layout_priority.1 SpanInterner.default ⟨5, 10, 0⟩).1 (by decide)).1

/-- C4: encode(0, 1000000, 0) takes the interned fallback path (no inline
layout holds length 1000000); a second identical call returns the same span
and the same interner state, so the entry count does not grow. -/
theorem C4_fallback_boundary (st st1 : SpanInterner) (sp1 : Span)
    (henc : encode st ⟨0, 1000000, 0⟩ = some (sp1, st1)) :
    needsFallback ⟨0, 1000000, 0⟩ ∧
    sp1.val &&& TAG_MASK = TAG_INTERNED ∧
    encode st1 ⟨0, 1000000, 0⟩ = some (sp1, st1) := by
  have hnf : needsFallback ⟨0, 1000000, 0⟩ := by decide
  rw [encode_fallback st _ hnf] at henc
  by_cases hg : (st.intern ⟨0, 1000000, 0⟩).1 >>> INTERNED_INDEX_SIZE = 0
  · rw [if_pos hg] at henc
    simp only [Option.some.injEq, Prod.mk.injEq] at henc
    obtain ⟨rfl, rfl⟩ := henc
    have hi30 : (st.intern ⟨0, 1000000, 0⟩).1 < 2 ^ 30 := by
      simpa only [INTERNED_INDEX_SIZE, shiftRight_eq_zero_iff] using hg
    refine ⟨hnf, ?_, ?_⟩
    · rw [interned_val_eq _ hi30]
      simp only [TAG_MASK, TAG_INTERNED]
      rw [and_three_eq_mod]
      omega
    · rw [encode_fallback _ _ hnf, intern_intern st ⟨0, 1000000, 0⟩, if_pos hg]
  · rw [if_neg hg] at henc
    cases henc

/-- Witness for C4 from the fresh interner. -/
theorem C4_fallback_boundary_witness :
    needsFallback ⟨0, 1000000, 0⟩ ∧
    (⟨3⟩ : Span).val &&& TAG_MASK = TAG_INTERNED ∧
    encode ⟨[(⟨0, 1000000, 0⟩, 0)], [⟨0, 1000000, 0⟩]⟩ ⟨0, 1000000, 0⟩ =
      some (⟨3⟩, ⟨[(⟨0, 1000000, 0⟩, 0)], [⟨0, 1000000, 0⟩]⟩) :=
  C4_fallback_boundary SpanInterner.default
    ⟨[(⟨0, 1000000, 0⟩, 0)], [⟨0, 1000000, 0⟩]⟩ ⟨3⟩ (by decide)

/-- C5: intern deduplicates - re-interning an equal value returns the
existing index and leaves the store unchanged - and interning a list of
pairwise-distinct values into a fresh interner returns the sequential
indices 0..N-1 in first-seen order. -/
theorem C5_dedup :
    (∀ (st st' : SpanInterner) (sd : SpanData) (i : Nat),
      st.intern sd = (i, st') → st'.intern sd = (i, st')) ∧
    (∀ (st st' stx : SpanInterner) (sd x : SpanData) (i j : Nat),
      st.intern sd = (i, st') → st'.intern x = (j, stx) →
      stx.intern sd = (i, stx)) ∧
    (∀ l : List SpanData, l.Nodup → l.length ≤ U32 →
      (internAll SpanInterner.default l).1 = List.range l.length) := by
  refine ⟨?_, ?_, ?_⟩
  · intro st st' sd i h
    have hii := intern_intern st sd
    rw [h] at hii
    exact hii
  · intro st st' stx sd x i j h hx
    exact intern_stable st st' stx sd x i j h hx
  · intro l hnd hlen
    have hrun := internAll_fresh l SpanInterner.default hnd (fun x _ => rfl)
      (by simpa [SpanInterner.default] using hlen)
    rw [hrun.1]
    simp [SpanInterner.default, List.range_eq_range']

/-- Witness for C5 on two distinct concrete values. -/
theorem C5_dedup_witness :
    (internAll SpanInterner.default [⟨1, 2, 3⟩, ⟨4, 5, 6⟩]).1 = List.range 2 :=
  C5_dedup.2.2 [⟨1, 2, 3⟩, ⟨4, 5, 6⟩] (by decide) (by decide)

/-- C6: a context that does not fit in 11 bits (ctxt >>> 11 ≠ 0) never
selects an inline layout, however small base and length are: all three fits
checks fail and encode is exactly the interned fallback arm. -/
theorem C6_context_overflow (st : SpanInterner) (sd : SpanData)
    (h : sd.ctxt >>> 11 ≠ 0) :
    ¬ fits sd.lo ((sd.hi + U32 - sd.lo) % U32) sd.ctxt INLINE0_SIZES ∧
    ¬ fits sd.lo ((sd.hi + U32 - sd.lo) % U32) sd.ctxt INLINE1_SIZES ∧
    ¬ fits sd.lo ((sd.hi + U32 - sd.lo) % U32) sd.ctxt INLINE2_SIZES ∧
    encode st sd =
      (if (st.intern sd).1 >>> INTERNED_INDEX_SIZE = 0 then
        some (⟨(((st.intern sd).1 <<< INTERNED_INDEX_OFFSET) % U32) |||
                TAG_INTERNED⟩, (st.intern sd).2)
      else none) := by
  have hc : ¬ sd.ctxt < 2 ^ 11 := fun hlt =>
    h ((shiftRight_eq_zero_iff _ _).mpr hlt)
  obtain ⟨h0, h1, h2⟩ := needsFallback_of_ctxt sd hc
  exact ⟨h0, h1, h2, encode_fallback st sd ⟨h0, h1, h2⟩⟩

/-- Witness for C6 at a tiny range with a 12-bit context. -/
theorem C6_context_overflow_witness :
    ¬ fits (⟨0, 0, 2048⟩ : SpanData).lo
        (((⟨0, 0, 2048⟩ : SpanData).hi + U32 - (⟨0, 0, 2048⟩ : SpanData).lo) %
          U32) (⟨0, 0, 2048⟩ : SpanData).ctxt INLINE0_SIZES ∧
    ¬ fits (⟨0, 0, 2048⟩ : SpanData).lo
        (((⟨0, 0, 2048⟩ : SpanData).hi + U32 - (⟨0, 0, 2048⟩ : SpanData).lo) %
          U32) (⟨0, 0, 2048⟩ : SpanData).ctxt INLINE1_SIZES ∧
    ¬ fits (⟨0, 0, 2048⟩ : SpanData).lo
        (((⟨0, 0, 2048⟩ : SpanData).hi + U32 - (⟨0, 0, 2048⟩ : SpanData).lo) %
          U32) (⟨0, 0, 2048⟩ : SpanData).ctxt INLINE2_SIZES ∧
    encode SpanInterner.default ⟨0, 0, 2048⟩ =
      (if (SpanInterner.default.intern ⟨0, 0, 2048⟩).1 >>>
          INTERNED_INDEX_SIZE = 0 then
        some (⟨(((SpanInterner.default.intern ⟨0, 0, 2048⟩).1 <<<
                INTERNED_INDEX_OFFSET) % U32) ||| TAG_INTERNED⟩,
              (SpanInterner.default.intern ⟨0, 0, 2048⟩).2)
      else none) :=
  C6_context_overflow SpanInterner.default ⟨0, 0, 2048⟩ (by decide)

/-- C7 counterexample: a fresh interner accepts 2 ^ 30 pairwise-distinct
fallback-requiring ranges - more than the claimed threshold of 2 ^ 30 - 1 -
with every encode succeeding, so interning more than 2 ^ 30 - 1 distinct
ranges does not trigger the fatal exhaustion condition. -/
theorem C7_counterexample :
    (fallbackFamily (2 ^ 30)).Nodup ∧
    (∀ x ∈ fallbackFamily (2 ^ 30), needsFallback x) ∧
    (fallbackFamily (2 ^ 30)).length = 2 ^ 30 ∧
    2 ^ 30 > 2 ^ 30 - 1 ∧
    (encodeAll SpanInterner.default (fallbackFamily (2 ^ 30))).isSome =
      true := by
  refine ⟨fallbackFamily_nodup _, fallbackFamily_fallback _,
    fallbackFamily_length _, by norm_num, ?_⟩
  obtain ⟨sps, st', hrun, -, -⟩ := encodeAll_fresh (fallbackFamily (2 ^ 30))
    SpanInterner.default (fallbackFamily_nodup _) (fallbackFamily_fallback _)
    (fun x _ => rfl)
    (by rw [fallbackFamily_length]; norm_num [SpanInterner.default])
  rw [hrun]
  rfl

/-- C7 amended: while the freshly interned index still fits in 30 bits the
fallback encoding is the index shifted left by 2 tagged with discriminant 3,
and an index needing more than 30 bits is the fatal condition; interning
more than 2 ^ 30 (not 2 ^ 30 - 1) pairwise-distinct fallback-requiring
ranges in one interner reaches it. -/
theorem C7_exhaustion (st : SpanInterner) (sd : SpanData) (l : List SpanData)
    (hfb : needsFallback sd) (hnd : l.Nodup) (hlfb : ∀ x ∈ l, needsFallback x)
    (hlen : l.length > 2 ^ 30) :
    ((st.intern sd).1 >>> INTERNED_INDEX_SIZE = 0 →
      encode st sd = some (⟨(((st.intern sd).1 <<< INTERNED_INDEX_OFFSET) %
        U32) ||| TAG_INTERNED⟩, (st.intern sd).2)) ∧
    ((st.intern sd).1 >>> INTERNED_INDEX_SIZE ≠ 0 → encode st sd = none) ∧
    encodeAll SpanInterner.default l = none := by
  refine ⟨?_, ?_, ?_⟩
  · intro hg
    rw [encode_fallback st sd hfb, if_pos hg]
  · intro hg
    rw [encode_fallback st sd hfb, if_neg hg]
  · have hsplit := List.take_append_drop (2 ^ 30) l
    have hnd2 : (l.take (2 ^ 30) ++ l.drop (2 ^ 30)).Nodup := by
      rw [hsplit]
      exact hnd
    obtain ⟨hndA, hndB, hdisj⟩ := List.nodup_append.mp hnd2
    have htlen : (l.take (2 ^ 30)).length = 2 ^ 30 := by
      rw [List.length_take]
      omega
    obtain ⟨sps, stA, hrunA, hlenA, hpres⟩ := encodeAll_fresh (l.take (2 ^ 30))
      SpanInterner.default hndA
      (fun x hx => hlfb x (List.take_subset _ _ hx))
      (fun x _ => rfl)
      (by rw [htlen]; norm_num [SpanInterner.default])
    cases hB : l.drop (2 ^ 30) with
    | nil =>
        have : l.length ≤ 2 ^ 30 := by
          have hdl := List.length_drop (2 ^ 30) l
          rw [hB] at hdl
          simp at hdl
          omega
        omega
    | cons y rest =>
        have hyB : y ∈ l.drop (2 ^ 30) := by
          rw [hB]
          exact List.mem_cons_self y rest
        have hyA : y ∉ l.take (2 ^ 30) := fun hcontra => hdisj hcontra hyB
        have hymiss : mapGet stA.spans y = none := hpres y rfl hyA
        have hlenA0 : stA.spans.length = 2 ^ 30 := by
          rw [hlenA, htlen]
          norm_num [SpanInterner.default]
        have hency : encode stA y = none := by
          rw [encode_fallback stA y (hlfb y (List.drop_subset _ _ hyB)),
            if_neg ?_]
          rw [intern_miss stA y hymiss]
          simp only [hlenA0]
          intro hcontra
          rw [show (2 ^ 30 % U32 : Nat) = 2 ^ 30 by rw [U32_eq]; omega] at hcontra
          rw [INTERNED_INDEX_SIZE, shiftRight_eq_zero_iff] at hcontra
          omega
        have hruns : encodeAll SpanInterner.default
            (l.take (2 ^ 30) ++ l.drop (2 ^ 30)) = none := by
          apply encodeAll_none_of_append (l.take (2 ^ 30)) SpanInterner.default
            stA (l.drop (2 ^ 30)) sps hrunA
          rw [hB]
          exact encodeAll_cons_none stA y rest hency
        rw [hsplit] at hruns
        exact hruns

/-- Witness for C7 on the concrete family of 2 ^ 30 + 1 distinct
fallback-requiring ranges. -/
theorem C7_exhaustion_witness :
    encodeAll SpanInterner.default (fallbackFamily (2 ^ 30 + 1)) = none :=
  (C7_exhaustion SpanInterner.default ⟨0, 0, 2048⟩ (fallbackFamily (2 ^ 30 + 1))
    (by decide) (fallbackFamily_nodup _) (fallbackFamily_fallback _)
    (by rw [fallbackFamily_length]; omega)).2.2

/-- C8: decoding a span produced by a successful encode always succeeds (in
particular the tag-3 index lookup is in bounds) and returns the interner it
was given unchanged. -/
theorem C8_decode_total (st st' : SpanInterner) (sd : SpanData) (sp : Span)
    (hwf : WF st) (hsmall : st.spans.length < U32)
    (henc : encode st sd = some (sp, st')) :
    (∃ d, (decode st' sp).1 = some d) ∧ (decode st' sp).2 = st' := by
  obtain ⟨h1, h2⟩ := encode_decode_isSome st st' sd sp hwf hsmall henc
  exact ⟨Option.isSome_iff_exists.mp h1, h2⟩

/-- Witness for C8 on a concrete fallback encode. -/
theorem C8_decode_total_witness :
    (∃ d, (decode ⟨[(⟨7, 7, 4096⟩, 0)], [⟨7, 7, 4096⟩]⟩ ⟨3⟩).1 = some d) ∧
    (decode ⟨[(⟨7, 7, 4096⟩, 0)], [⟨7, 7, 4096⟩]⟩ ⟨3⟩).2 =
      (⟨[(⟨7, 7, 4096⟩, 0)], [⟨7, 7, 4096⟩]⟩ : SpanInterner) :=
  C8_decode_total SpanInterner.default ⟨[(⟨7, 7, 4096⟩, 0)], [⟨7, 7, 4096⟩]⟩
    ⟨7, 7, 4096⟩ ⟨3⟩ (by decide) (by decide) (by decide)

/-- C9: get returns by value exactly the range interned under the returned
index - immediately after the intern that produced the index, and stably
under any later intern on the same interner. -/
theorem C9_get_intern (st : SpanInterner) (r x : SpanData)
    (hwf : WF st) (hsmall : st.spans.length < U32) :
    (st.intern r).2.get (st.intern r).1 = some r ∧
    (∀ i d, st.get i = some d → (st.intern x).2.get i = some d) :=
  ⟨intern_get_self st r hwf hsmall,
   fun i d h => intern_get_stable st x i d h⟩

/-- Witness for C9 on a concrete intern into the fresh interner. -/
theorem C9_get_intern_witness :
    (SpanInterner.default.intern ⟨1, 2, 3⟩).2.get
      (SpanInterner.default.intern ⟨1, 2, 3⟩).1 = some ⟨1, 2, 3⟩ :=
  (C9_get_intern SpanInterner.default ⟨1, 2, 3⟩ ⟨4, 5, 6⟩ (by decide)
    (by decide)).1

/-- C10: the all-zero scalar (the dummy span) is a valid tag-0 inline span
and decodes, for any interner state and without consulting it, to the zero
location range. -/
theorem C10_dummy (st : SpanInterner) :
    DUMMY_SP.val &&& TAG_MASK = TAG_INLINE0 ∧
    decode st DUMMY_SP = (some ⟨0, 0, 0⟩, st) := by
  refine ⟨by decide, ?_⟩
  simp only [DUMMY_SP]
  rw [decode_eq, if_pos (by norm_num)]
  norm_num

end SpanEncoding
